/-
  Verification of the Knowledge-Weaver backend (`src/backend_api`).

  This file shallowly embeds the services the claims are about:
    - `services/anonymizer.py`   (redaction filter, via a small regex engine
      mirroring the Python `re` constructs the patterns use)
    - `services/vector_db.py`    (knowledge store: search / soft delete /
      restore / update / recent listing)
    - `services/query_service.py` (query orchestration and query logging)
    - `services/gemini_client.py` (analyze_content response handling)
    - `services/learning.py`     (active-learning event log)
    - `routes/api.py`            (update endpoint, dashboard metrics caller)

  Machine reals (Python floats) are modelled as exact rationals; Python dicts
  holding known keys are modelled as structures with `Option` fields (a `none`
  field is an absent key); Python lists as `List`.
-/
import Mathlib

namespace KnowledgeWeaver
/-! ## Stable sorting

Python's `list.sort(key=k, reverse=True)` is a *stable* sort: elements whose
keys compare equal keep their original relative order, also with
`reverse=True` (CPython reverses comparisons, not the list).  We model it as
a stable insertion sort parameterised by a boolean comparator `le`, where
`le x y = true` means `x` may be placed before `y`. -/

def insOrd (le : α → α → Bool) (x : α) : List α → List α
  | [] => [x]
  | y :: ys => if le x y then x :: y :: ys else y :: insOrd le x ys

/-- Stable sort: `le x y = true` means `x` may stay in front of `y`.
For a descending key sort (Python `reverse=True`), use
`le x y := key y ≤ key x`. -/
def sortBy (le : α → α → Bool) (l : List α) : List α :=
  l.foldr (insOrd le) []

/-- Comparator of a descending sort by key `k` (Python
`sort(key=k, reverse=True)`). -/
def keyDescLe [LinearOrder κ] (k : α → κ) (a b : α) : Bool :=
  decide (k b ≤ k a)

/-! ## Regex engine

`services/anonymizer.py` compiles eight Python `re` patterns and applies
`pattern.sub(template, text)` passes in a fixed order.  The engine below
models precisely the `re` constructs those patterns use: character classes,
literals (with the `IGNORECASE` flag), concatenation, ordered alternation,
greedy `?`/`+`/`{n}`/`{n,}`, the lazy `.*?`, the word boundary `\b`, and
capturing groups.  Matching is Python's leftmost backtracking search:
alternatives are tried left to right, greedy pieces try the longer extent
first, lazy ones the shorter, each with full backtracking into what follows.
Only one capture span is tracked (the subsequent group write wins): the only
template using a group reference is the participant pass, whose pattern has a
single group, so this is faithful for every pattern/template pair in the
source.  Inputs are ASCII, so `\w` is modelled as `[A-Za-z0-9_]`. -/

inductive Re where
  | eps
  | cls (p : Char → Bool)
  | cat (a b : Re)
  | alt (a b : Re)
  | star (lazy : Bool) (body : Re)
  | wordB
  | grp (a : Re)

def Re.size : Re → Nat
  | .eps => 1
  | .cls _ => 1
  | .cat a b => a.size + b.size + 1
  | .alt a b => a.size + b.size + 1
  | .star _ a => a.size + 1
  | .wordB => 1
  | .grp a => a.size + 1

def charMatch (ci : Bool) (target c : Char) : Bool :=
  if ci then c.toLower == target.toLower else c == target

/-- A literal string, honouring `re.IGNORECASE` when `ci` is set. -/
def litS (ci : Bool) (t : String) : Re :=
  t.data.foldr (fun c r => Re.cat (Re.cls (charMatch ci c)) r) Re.eps

/-- Exactly `n` repetitions: `r{n}`. -/
def repExact (n : Nat) (r : Re) : Re :=
  match n with
  | 0 => Re.eps
  | n + 1 => Re.cat r (repExact n r)

/-- Greedy `r{n,}`. -/
def atLeast (n : Nat) (r : Re) : Re :=
  Re.cat (repExact n r) (Re.star false r)

/-- Greedy `r+`. -/
def rplus (r : Re) : Re := Re.cat r (Re.star false r)

/-- Greedy `r?`. -/
def ropt (r : Re) : Re := Re.alt r Re.eps

def isWordChar (c : Char) : Bool := c.isAlphanum || c == '_'

def isWordAt (s : List Char) (i : Nat) : Bool :=
  match s.get? i with
  | some c => isWordChar c
  | none => false

/-- Python `\b`: exactly one of the two adjacent positions holds a word
character (positions outside the string count as non-word). -/
def atBoundary (s : List Char) (i : Nat) : Bool :=
  isWordAt s i != (if i == 0 then false else isWordAt s (i - 1))

/-- A capture span `(start, stop)` in the subject. -/
abbrev Span := Nat × Nat

/-- Result of a match attempt: overall end position and group-1 span. -/
abbrev MRes := Option (Nat × Option Span)

/-- Backtracking matcher in continuation-passing style.  `fuel` only bounds
the recursion structurally; every star iteration must consume input (all the
anonymizer's star bodies consume a character, matching Python, which stops
repeating a piece on an empty-width iteration), so
`(length + 2) * (size + 2)` fuel is always sufficient. -/
def mrun (s : List Char) (fuel : Nat) (r : Re) (pos : Nat) (cap : Option Span)
    (k : Nat → Option Span → MRes) : MRes :=
  match fuel with
  | 0 => none
  | fuel + 1 =>
    match r with
    | .eps => k pos cap
    | .cls p =>
      match s.get? pos with
      | some c => if p c then k (pos + 1) cap else none
      | none => none
    | .cat a b => mrun s fuel a pos cap fun p' c' => mrun s fuel b p' c' k
    | .alt a b =>
      match mrun s fuel a pos cap k with
      | some res => some res
      | none => mrun s fuel b pos cap k
    | .star lz body =>
      let again := fun p' c' =>
        if p' == pos then none else mrun s fuel (.star lz body) p' c' k
      if lz then
        match k pos cap with
        | some res => some res
        | none => mrun s fuel body pos cap again
      else
        match mrun s fuel body pos cap again with
        | some res => some res
        | none => k pos cap
    | .wordB => if atBoundary s pos then k pos cap else none
    | .grp a => mrun s fuel a pos cap fun p' _ => k p' (some (pos, p'))

def matchFuel (s : List Char) (r : Re) : Nat := (s.length + 2) * (r.size + 2)

/-- Anchored match attempt at position `i`. -/
def matchFrom (r : Re) (s : List Char) (i : Nat) : MRes :=
  mrun s (matchFuel s r) r i none fun p c => some (p, c)

/-- Leftmost match at or after position `i` (Python scanning). -/
def searchAux (r : Re) (s : List Char) (fuel i : Nat) :
    Option (Nat × Nat × Option Span) :=
  match fuel with
  | 0 => none
  | fuel + 1 =>
    match matchFrom r s i with
    | some (e, cap) => some (i, e, cap)
    | none => if i < s.length then searchAux r s fuel (i + 1) else none

def reSearch (r : Re) (s : List Char) (i : Nat) :
    Option (Nat × Nat × Option Span) :=
  searchAux r s (s.length + 1 - i) i

/-- A replacement template: literal pieces and `\1` group references. -/
inductive TmplItem where
  | lit (t : List Char)
  | group

def expandTmpl (tmpl : List TmplItem) (s : List Char) (cap : Option Span) :
    List Char :=
  tmpl.foldr
    (fun it acc =>
      (match it with
        | .lit t => t
        | .group =>
          match cap with
          | some (a, b) => (s.drop a).take (b - a)
          | none => []) ++ acc)
    []

/-- Python `pattern.sub(template, s)`: replace every non-overlapping leftmost
match, resuming after each match's end (advancing one character past an
empty-width match, which the anonymizer's patterns never produce). -/
def subAux (r : Re) (tmpl : List TmplItem) (s : List Char) (fuel pos : Nat)
    (acc : List Char) : List Char :=
  match fuel with
  | 0 => acc ++ s.drop pos
  | fuel + 1 =>
    match reSearch r s pos with
    | none => acc ++ s.drop pos
    | some (st, en, cap) =>
      let pre := (s.drop pos).take (st - pos)
      let rep := expandTmpl tmpl s cap
      if en ≤ st then
        match s.get? st with
        | some c => subAux r tmpl s fuel (st + 1) (acc ++ pre ++ rep ++ [c])
        | none => acc ++ pre ++ rep
      else subAux r tmpl s fuel en (acc ++ pre ++ rep)

def pySub (r : Re) (tmpl : List TmplItem) (s : List Char) : List Char :=
  subAux r tmpl s (s.length + 1) 0 []

/-- One anonymizer pass: the source first runs `findall` and substitutes only
when it found matches (`if matches: ... .sub(...)`); `findall` finds a match
iff the scan from position 0 does. -/
def passSub (r : Re) (tmpl : List TmplItem) (s : List Char) : List Char :=
  if (reSearch r s 0).isSome then pySub r tmpl s else s

/-! ### The eight compiled patterns of `AnonymizerService.__init__` -/

def digitC (c : Char) : Bool := c.isDigit
def emailLocalC (c : Char) : Bool :=
  c.isAlpha || c.isDigit || c == '.' || c == '_' || c == '%' || c == '+' || c == '-'
def emailDomainC (c : Char) : Bool := c.isAlpha || c.isDigit || c == '.' || c == '-'
/-- The source's TLD class is `[A-Z|a-z]{2,}`: it contains a literal pipe. -/
def emailTldC (c : Char) : Bool := c.isAlpha || c == '|'
def spaceC (c : Char) : Bool :=
  c == ' ' || c == '\t' || c == '\n' || c == '\r' || c == '\x0b' || c == '\x0c'
def colonSpaceC (c : Char) : Bool := c == ':' || spaceC c
def dashDotC (c : Char) : Bool := c == '-' || c == '.'
def dotC (c : Char) : Bool := c != '\n'
/-- `[A-Z0-9]` under `IGNORECASE`. -/
def upperDigitCI (c : Char) : Bool := c.isAlpha || c.isDigit
def alnumC (c : Char) : Bool := c.isAlpha || c.isDigit

/-- `\b[A-Za-z0-9._%+-]+@[A-Za-z0-9.-]+\.[A-Z|a-z]{2,}\b` -/
def emailRe : Re :=
  .cat .wordB (.cat (rplus (.cls emailLocalC)) (.cat (litS false "@")
    (.cat (rplus (.cls emailDomainC)) (.cat (litS false ".")
      (.cat (atLeast 2 (.cls emailTldC)) .wordB)))))

/-- `\b(?:\+?1[-.]?)?\(?([0-9]{3})\)?[-.]?([0-9]{3})[-.]?([0-9]{4})\b` -/
def phoneRe : Re :=
  .cat .wordB (.cat (ropt (.cat (ropt (litS false "+"))
      (.cat (litS false "1") (ropt (.cls dashDotC)))))
    (.cat (ropt (litS false "(")) (.cat (.grp (repExact 3 (.cls digitC)))
      (.cat (ropt (litS false ")")) (.cat (ropt (.cls dashDotC))
        (.cat (.grp (repExact 3 (.cls digitC))) (.cat (ropt (.cls dashDotC))
          (.cat (.grp (repExact 4 (.cls digitC))) .wordB))))))))

/-- `\b\d{3}-\d{2}-\d{4}\b` -/
def ssnRe : Re :=
  .cat .wordB (.cat (repExact 3 (.cls digitC)) (.cat (litS false "-")
    (.cat (repExact 2 (.cls digitC)) (.cat (litS false "-")
      (.cat (repExact 4 (.cls digitC)) .wordB)))))

/-- `(?:participant|patient|member).*?ID[:\s]+(\w{5,})` with `IGNORECASE` -/
def participantIdRe : Re :=
  .cat (.alt (litS true "participant") (.alt (litS true "patient")
      (litS true "member")))
    (.cat (.star true (.cls dotC)) (.cat (litS true "ID")
      (.cat (rplus (.cls colonSpaceC)) (.grp (atLeast 5 (.cls isWordChar))))))

/-- `(?:employee|emp|staff).*?ID[:\s]+(\w{5,})` with `IGNORECASE` -/
def employeeIdRe : Re :=
  .cat (.alt (litS true "employee") (.alt (litS true "emp") (litS true "staff")))
    (.cat (.star true (.cls dotC)) (.cat (litS true "ID")
      (.cat (rplus (.cls colonSpaceC)) (.grp (atLeast 5 (.cls isWordChar))))))

/-- `\bID[:\s]+([A-Z0-9]{5,})\b` with `IGNORECASE` -/
def genericIdRe : Re :=
  .cat .wordB (.cat (litS true "ID") (.cat (rplus (.cls colonSpaceC))
    (.cat (.grp (atLeast 5 (.cls upperDigitCI))) .wordB)))

/-- `\b(Agent|Representative|Support)_([A-Za-z0-9]+)\b` with `IGNORECASE` -/
def agentHandleRe : Re :=
  .cat .wordB (.cat (.grp (.alt (litS true "Agent")
      (.alt (litS true "Representative") (litS true "Support"))))
    (.cat (litS false "_") (.cat (.grp (rplus (.cls alnumC))) .wordB)))

/-- `\b(Lead|Supervisor|Manager)_([A-Za-z0-9]+)\b` with `IGNORECASE` -/
def leadHandleRe : Re :=
  .cat .wordB (.cat (.grp (.alt (litS true "Lead")
      (.alt (litS true "Supervisor") (litS true "Manager"))))
    (.cat (litS false "_") (.cat (.grp (rplus (.cls alnumC))) .wordB)))

/-- `AnonymizerService.anonymize_text`: empty input is returned unchanged
(`if not text: return text`), otherwise the eight guarded substitution passes
run in the source's order. -/
def anonymize_text (text : String) : String :=
  if text == "" then text
  else
    let a1 := passSub emailRe [.lit "[EMAIL_REDACTED]".data] text.data
    let a2 := passSub phoneRe [.lit "[PHONE_REDACTED]".data] a1
    let a3 := passSub ssnRe [.lit "[SSN_REDACTED]".data] a2
    let a4 := passSub participantIdRe
      [.group, .lit " [PARTICIPANT_ID_REDACTED]".data] a3
    let a5 := passSub employeeIdRe [.lit " [EMPLOYEE_ID_REDACTED]".data] a4
    let a6 := passSub genericIdRe [.lit "[ID_REDACTED]".data] a5
    let a7 := passSub agentHandleRe [.lit "Questioner".data] a6
    let a8 := passSub leadHandleRe [.lit "Respondent".data] a7
    String.mk a8

/-! ## Knowledge store (`services/vector_db.py`)

A ChromaDB collection row is `(id, document, embedding, metadata)`.  Metadata
is a Python dict whose known keys we model as `Option` fields (`none` = key
absent).  The store is the collection's rows in insertion order (ChromaDB
`collection.get` returns rows in that order).  The index's nearest-neighbour
`collection.query` is modelled by an explicit distance assignment
`d : id → ℚ` for the query embedding at hand: rows pass the `where` filter,
are ordered by ascending distance and cut to `n_results`. -/

structure Metadata where
  category : Option String
  tags : Option String
  summary : Option String
  screenshot : Option String
  has_screenshot : Option Bool
  verification_status : Option String
  is_deleted : Option Bool
  deleted_at : Option String
  timestamp : Option String
deriving Repr, DecidableEq

structure StoredEntry where
  id : String
  document : String
  embedding : List Rat
  metadata : Metadata
deriving Repr, DecidableEq

/-- The `{"is_deleted": {"$ne": True}}` filter: an absent key or any value
other than `True` passes. -/
def whereActive (m : Metadata) : Bool := !(m.is_deleted == some true)

/-- The `{"is_deleted": True}` filter. -/
def whereDeleted (m : Metadata) : Bool := m.is_deleted == some true

/-- The `where` filter `VectorDatabase.search` hands to `collection.query`:
`is_deleted != True` unless `include_deleted`, plus
`verification_status == "verified_human"` when `verified_only`. -/
def queryWhere (verifiedOnly includeDeleted : Bool) (m : Metadata) : Bool :=
  (includeDeleted || whereActive m)
    && (!verifiedOnly || m.verification_status == some "verified_human")

/-- Ascending comparator by key `k` (ties keep store order; ChromaDB does not
specify tie order, the claims do not depend on it). -/
def keyAscLe [LinearOrder κ] (k : α → κ) (a b : α) : Bool :=
  decide (k a ≤ k b)

/-- `collection.query(query_embeddings=[q], n_results=n, where=...)`. -/
def collectionQuery (store : List StoredEntry) (d : String → Rat) (n : Nat)
    (verifiedOnly includeDeleted : Bool) : List StoredEntry :=
  (sortBy (keyAscLe fun e => d e.id)
      (store.filter fun e => queryWhere verifiedOnly includeDeleted e.metadata)).take n

structure SearchMatch where
  id : String
  document : String
  metadata : Metadata
  similarity_score : Rat
deriving Repr, DecidableEq

def verifiedBoost (m : Metadata) : Nat :=
  if m.verification_status = some "verified_human" then 1 else 0

/-- The re-ranking key of `VectorDatabase.search`:
`(1 if verified_human else 0, similarity_score)`, compared lexicographically. -/
def rankKey (x : SearchMatch) : Nat ×ₗ Rat :=
  toLex (verifiedBoost x.metadata, x.similarity_score)

/-- The comparator of `matches.sort(key=..., reverse=True)`. -/
def rankLe : SearchMatch → SearchMatch → Bool := keyDescLe rankKey

/-- The matches of `VectorDatabase.search` before the re-ranking sort:
similarity is `1 - distance / 2` and candidates below `threshold` are
discarded. -/
def searchCandidates (store : List StoredEntry) (d : String → Rat)
    (topK : Nat) (threshold : Rat) (verifiedOnly includeDeleted : Bool) :
    List SearchMatch :=
  (collectionQuery store d topK verifiedOnly includeDeleted).filterMap fun e =>
    if threshold ≤ 1 - d e.id / 2 then
      some ⟨e.id, e.document, e.metadata, 1 - d e.id / 2⟩
    else none

/-- `VectorDatabase.search` (defaults in the source: `top_k=3`,
`threshold=0.1`, `verified_only=False`, `include_deleted=False`). -/
def vdbSearch (store : List StoredEntry) (d : String → Rat) (topK : Nat)
    (threshold : Rat) (verifiedOnly includeDeleted : Bool) :
    List SearchMatch :=
  sortBy rankLe (searchCandidates store d topK threshold verifiedOnly includeDeleted)

/-- `metadata.get('timestamp', '')`, the sort key of `get_recent_entries`. -/
def tsKey (e : StoredEntry) : String := e.metadata.timestamp.getD ""

/-- Python string comparison: lexicographic by code point, a proper prefix
compares smaller.  (Lean's own `String` order is byte-iterator based, which
the kernel cannot evaluate; this structural version is extensionally the
same order.) -/
def charsLe : List Char → List Char → Bool
  | [], _ => true
  | _ :: _, [] => false
  | a :: as, b :: bs =>
    if a < b then true else if b < a then false else charsLe as bs

def strLe (s t : String) : Bool := charsLe s.data t.data

/-- The comparator of `entries.sort(key=timestamp, reverse=True)`. -/
def tsDescLe (a b : StoredEntry) : Bool := strLe (tsKey b) (tsKey a)

/-- `VectorDatabase.get_recent_entries` (default `limit=10`): filter by
deleted status, fetch at most 100 rows, sort by timestamp descending, cut to
`limit`. -/
def get_recent_entries (store : List StoredEntry) (limit : Nat)
    (deleted_only : Bool) : List StoredEntry :=
  let results := (store.filter fun e =>
    if deleted_only then whereDeleted e.metadata else whereActive e.metadata).take 100
  (sortBy tsDescLe results).take limit

/-- The metadata write of `VectorDatabase.delete_entry`:
`is_deleted = True`, `deleted_at = now`. -/
def markDeleted (m : Metadata) (now : String) : Metadata :=
  { m with is_deleted := some true, deleted_at := some now }

/-- `VectorDatabase.delete_entry` (soft delete): `False` when the id is
absent, otherwise flags the row and reports `True`.  Ids are unique in a
ChromaDB collection; mapping over every row with the id is equivalent. -/
def delete_entry (store : List StoredEntry) (entry_id now : String) :
    Bool × List StoredEntry :=
  if store.any (fun e => e.id == entry_id) then
    (true, store.map fun e =>
      if e.id == entry_id then { e with metadata := markDeleted e.metadata now } else e)
  else (false, store)

/-- The metadata write of `VectorDatabase.restore_entry`:
`is_deleted = False` and the `deleted_at` key removed. -/
def markRestored (m : Metadata) : Metadata :=
  { m with is_deleted := some false, deleted_at := none }

/-- `VectorDatabase.restore_entry`. -/
def restore_entry (store : List StoredEntry) (entry_id : String) :
    Bool × List StoredEntry :=
  if store.any (fun e => e.id == entry_id) then
    (true, store.map fun e =>
      if e.id == entry_id then { e with metadata := markRestored e.metadata } else e)
  else (false, store)

/-- The `updates` dict of the PATCH handler / `update_entry` (keys absent
when `none`). -/
structure MetaUpdates where
  category : Option String
  tags : Option String
  summary : Option String
  screenshot : Option String
  has_screenshot : Option Bool
  verification_status : Option String
deriving Repr, DecidableEq

/-- `current_metadata.update(updates)`: a key present in `updates` wins,
every other key keeps its current value. -/
def applyUpdates (m : Metadata) (u : MetaUpdates) : Metadata :=
  { category := u.category.or m.category
    tags := u.tags.or m.tags
    summary := u.summary.or m.summary
    screenshot := u.screenshot.or m.screenshot
    has_screenshot := u.has_screenshot.or m.has_screenshot
    verification_status := u.verification_status.or m.verification_status
    is_deleted := m.is_deleted
    deleted_at := m.deleted_at
    timestamp := m.timestamp }

/-- `VectorDatabase.update_entry`: merge metadata; swap the document only
when `content` is supplied, and the embedding only when both `content` and
`embedding` are. -/
def update_entry (store : List StoredEntry) (entry_id : String)
    (updates : MetaUpdates) (content : Option String)
    (embedding : Option (List Rat)) : Bool × List StoredEntry :=
  if store.any (fun e => e.id == entry_id) then
    (true, store.map fun e =>
      if e.id == entry_id then
        { e with
          metadata := applyUpdates e.metadata updates
          document := content.getD e.document
          embedding :=
            match content, embedding with
            | some _, some emb => emb
            | _, _ => e.embedding }
      else e)
  else (false, store)

/-! ## The PATCH `/knowledge/{entry_id}` handler (`routes/api.py`) -/

structure UpdateKnowledgeRequest where
  category : Option String
  tags : Option (List String)
  summary : Option String
  screenshot : Option String
deriving Repr, DecidableEq

/-- The `updates` dict the handler builds: each supplied request field,
`has_screenshot = True` when a screenshot is supplied, and always
`verification_status = "verified_human"` (active learning).  The handler's
`if not updates` guard can never fire because of that forced key. -/
def buildUpdates (r : UpdateKnowledgeRequest) : MetaUpdates :=
  ⟨r.category, r.tags.map (fun ts => String.intercalate "," ts), r.summary,
    r.screenshot,
    (match r.screenshot with | some _ => some true | none => none),
    some "verified_human"⟩

/-- `update_knowledge_entry`: the handler passes no content and no embedding
to the store. -/
def update_knowledge_entry (store : List StoredEntry) (entry_id : String)
    (r : UpdateKnowledgeRequest) : Bool × List StoredEntry :=
  update_entry store entry_id (buildUpdates r) none none

/-! ## First-occurrence deduplication

Models Python's `list(set(xs))`: Python's set iteration order is
unspecified, so we fix the first-occurrence order; every claim that touches
it depends only on the element set and its size, which agree. -/

def dedupAux [DecidableEq α] : List α → List α → List α
  | [], _ => []
  | a :: l, seen =>
    if a ∈ seen then dedupAux l seen else a :: dedupAux l (a :: seen)

def dedupFirst [DecidableEq α] (l : List α) : List α := dedupAux l []

/-! ### Kernel-reducible models of the Python string helpers

Lean's own `String.splitOn`, `String.trim` and `String.toLower` are defined
by byte-position recursion that the kernel does not unfold, so the Python
operations the source uses are modelled directly on character lists. -/

/-- Python `s.split(sep)` for a one-character separator (the source only
splits on `","` and `"/"`).  `"".split(sep) == [""]`. -/
def splitCharAux (sep : Char) : List Char → List Char → List String
  | [], cur => [String.mk cur.reverse]
  | c :: cs, cur =>
    if c == sep then String.mk cur.reverse :: splitCharAux sep cs []
    else splitCharAux sep cs (c :: cur)

def pySplit (sep : Char) (s : String) : List String :=
  splitCharAux sep s.data []

/-- Python `s.lower()` (ASCII inputs). -/
def pyLower (s : String) : String := String.mk (s.data.map Char.toLower)

/-- Python `s.strip()`. -/
def pyStrip (s : String) : String :=
  String.mk
    (((s.data.dropWhile Char.isWhitespace).reverse.dropWhile
      Char.isWhitespace).reverse)

/-! ## Query service (`services/query_service.py`)

ISO-8601 instants are modelled as naturals (the order embedding is all the
code uses).  The two external effects of `query_knowledge_base` — embedding
generation and the store search, either of which may raise — enter as
`Except` parameters; everything downstream is the source's control flow. -/

structure KnowledgeMatch where
  knowledge_id : String
  content : String
  similarity_score : Rat
deriving Repr, DecidableEq

structure QueryLogEntry where
  query_id : String
  query_text : String
  result_count : Nat
  processing_time_ms : Nat
  timestamp : Nat
  has_results : Bool
deriving Repr, DecidableEq

structure QueryResult where
  query_id : String
  query_text : String
  timestamp : Nat
  results : List KnowledgeMatch
  processing_time_ms : Nat
deriving Repr, DecidableEq

/-- `QueryService._format_matches`: each raw match becomes a
`KnowledgeMatch`; every step of the source's per-match `try` has a total
fallback (timestamp parse failure falls back to now, participants split is
total), so no match is ever skipped.  The source-metadata fields not used by
any claim are omitted. -/
def format_matches (ms : List SearchMatch) : List KnowledgeMatch :=
  ms.map fun m => ⟨m.id, m.document, m.similarity_score⟩

/-- `QueryService._log_query`: appends one line with
`has_results = result_count > 0`. -/
def log_query (log : List QueryLogEntry) (qid query : String)
    (result_count ptime now : Nat) : List QueryLogEntry :=
  log ++ [⟨qid, query, result_count, ptime, now, decide (0 < result_count)⟩]

/-- `QueryService.query_knowledge_base`: rejects empty/whitespace queries
(`ValueError`), otherwise embeds and searches inside one `try`; on success it
formats the matches and appends exactly one query-log line; the `except`
branch returns an empty result **without** reaching `_log_query`. -/
def query_knowledge_base (query qid : String) (now ptime : Nat)
    (embedRes : Except Unit (List Rat))
    (searchRes : List Rat → Except Unit (List SearchMatch))
    (log : List QueryLogEntry) :
    Except String (QueryResult × List QueryLogEntry) :=
  if pyStrip query == "" then .error "Query cannot be empty"
  else
    match embedRes with
    | .error _ => .ok (⟨qid, query, now, [], ptime⟩, log)
    | .ok emb =>
      match searchRes emb with
      | .error _ => .ok (⟨qid, query, now, [], ptime⟩, log)
      | .ok found =>
        let km := format_matches found
        .ok (⟨qid, query, now, km, ptime⟩,
          log_query log qid query km.length ptime now)

/-! ## Knowledge gaps -/

structure KnowledgeGap where
  query : String
  count : Nat
  last_asked : Nat
deriving Repr, DecidableEq

/-- The gap window: logged queries with `has_results = false` inside the
trailing window of `windowDays` days before `now` (seconds). -/
def gapWindow (logs : List QueryLogEntry) (now windowDays : Nat) :
    List QueryLogEntry :=
  logs.filter fun e =>
    !e.has_results && decide (now ≤ e.timestamp + windowDays * 86400)
      && decide (e.timestamp ≤ now)

/-- Latest timestamp of a group (`last_asked`). -/
def lastAsked (es : List QueryLogEntry) : Nat :=
  es.foldr (fun e acc => max e.timestamp acc) 0

/-- One gap aggregate per distinct failing query text. -/
def gapList (logs : List QueryLogEntry) (now windowDays : Nat) :
    List KnowledgeGap :=
  (dedupFirst ((gapWindow logs now windowDays).map (fun e => e.query_text))).map
    fun q =>
      let qs := (gapWindow logs now windowDays).filter
        fun e => e.query_text == q
      ⟨q, qs.length, lastAsked qs⟩

/-- Modelled from the spec: `QueryService.get_knowledge_gaps` is called by
`get_dashboard_metrics` in `routes/api.py` but its definition is not among
the source files; §3 (KnowledgeGap) and §4.5 of the spec define it as the
read-side aggregation that groups the query log's `has_results = false`
entries by exact query text within a trailing window (default 7 days),
yields `{query, count, last_asked}` per distinct text, most frequent first,
cut to the top `limit`. -/
def get_knowledge_gaps (logs : List QueryLogEntry) (now : Nat) (limit : Nat)
    (windowDays : Nat) : List KnowledgeGap :=
  (sortBy (keyDescLe fun g : KnowledgeGap => g.count)
    (gapList logs now windowDays)).take limit

/-! ## `GeminiClient.analyze_content` (`services/gemini_client.py`)

The generative model's raw response enters as the outcome of the JSON
extraction the source performs on it, one outcome per retry attempt:
`found j` (a JSON object was found and `json.loads` succeeded, with the three
fields read through `result.get`), `noJson` (no `{...}` block in the
response), `raised` (the generation call or `json.loads` raised — the
`except` branch that retries and, on the last attempt, re-raises). -/

structure AnalysisJson where
  category : Option String
  tags : Option (List String)
  summary : Option String
deriving Repr, DecidableEq

inductive ParseOutcome where
  | found (j : AnalysisJson)
  | noJson
  | raised
deriving Repr, DecidableEq

structure AnalyzeResult where
  category : String
  tags : List String
  summary : String
deriving Repr, DecidableEq

/-- The category-derived fallback tag:
`category.split("/")[0].strip().lower()`. -/
def fallbackHead (category : String) : String :=
  pyLower (pyStrip ((pySplit '/' category).headD ""))

/-- The tag fallback: `[category.split("/")[0].strip().lower(), "captured"]`
with `category = result.get("category", "General")`. -/
def fallbackTags (category : String) : List String :=
  [fallbackHead category, "captured"]

/-- The tag guard of the successful-parse path: keep the supplied tags, or
`list(set(tags + fallback_tags))[:5]` when fewer than two were supplied
(`if not tags or len(tags) < 2`). -/
def ensureTags (tags : List String) (category : String) : List String :=
  if tags.isEmpty || tags.length < 2 then
    (dedupFirst (tags ++ fallbackTags category)).take 5
  else tags

/-- The successful-parse path of `analyze_content`. -/
def processJson (j : AnalysisJson) : AnalyzeResult :=
  ⟨j.category.getD "Uncategorized",
    ensureTags (j.tags.getD []) (j.category.getD "General"),
    j.summary.getD "No summary available"⟩

/-- `analyze_content`'s retry loop over `max_retries` attempts (3 in the
source): a parsed JSON object returns its processed result; a response with
no JSON block returns the fixed degraded result; an exception retries, and
on the last attempt re-raises.  The literal after the loop is dead code for
a positive retry count. -/
def analyze_content : List ParseOutcome → Except Unit AnalyzeResult
  | [] => .ok ⟨"Uncategorized", [], "Analysis failed"⟩
  | o :: rest =>
    match o with
    | .found j => .ok (processJson j)
    | .noJson =>
      .ok ⟨"Uncategorized", ["general", "captured"],
        "Analysis failed to produce structured output"⟩
    | .raised => if rest.isEmpty then .error () else analyze_content rest

/-! ## Active learning (`services/learning.py`) -/

inductive Change where
  | correction (field old new : String)
  | refinement (field : String) (added : List String)
deriving Repr, DecidableEq

structure TimelinePoint where
  timestamp : String
  error_rate : Rat
  accuracy : Rat
deriving Repr, DecidableEq

structure LearningStats where
  total_corrections : Nat
  accuracy_rate : Rat
  errors_over_time : List TimelinePoint
deriving Repr, DecidableEq

structure LearningEvent where
  id : String
  entry_id : String
  timestamp : String
  source : String
  changes : List Change
  impact_score : Rat
deriving Repr, DecidableEq

structure LearningState where
  events : List LearningEvent
  stats : LearningStats
deriving Repr, DecidableEq

/-- The category/tags slice of the `old_data`/`new_data` dicts. -/
structure CorrectionData where
  category : Option String
  tags : Option String
deriving Repr, DecidableEq

/-- `set(d.get('tags','').split(',')) if d.get('tags') else set()` —
a `None` or empty string is falsy. -/
def tagsSetOf (t : Option String) : List String :=
  match t with
  | some s => if s == "" then [] else dedupFirst (pySplit ',' s)
  | none => []

/-- Python `round(x, 4)`; float round-half-even modelled as round-half-up on
exact rationals (no claim exercises the tie case). -/
def round4 (x : Rat) : Rat := ((x * 10000 + 1/2).floor : Rat) / 10000

/-- `LearningService._update_stats`. -/
def update_stats (changes : List Change) (stats : LearningStats)
    (ts : String) : LearningStats :=
  let cc := (changes.filter fun c =>
    match c with | .correction _ _ _ => true | _ => false).length
  let cur := 1 - stats.accuracy_rate
  let newErr :=
    if 0 < cc then min (cur + 1/20) 1 else max (cur * (9/10)) (1/100)
  let acc := 1 - newErr
  let series := stats.errors_over_time ++ [⟨ts, round4 newErr, round4 acc⟩]
  ⟨stats.total_corrections + cc, acc, series.drop (series.length - 50)⟩

/-- `LearningService.log_learning_event`: diff category (exact match →
`correction`) and tags (set difference, added only → `refinement`); with no
diff, return `None` *before* the event insert and the stats update. -/
def log_learning_event (st : LearningState) (entry_id : String)
    (old_data new_data : CorrectionData) (ts src : String) :
    Option LearningEvent × LearningState :=
  let old_cat := old_data.category.getD "Uncategorized"
  let new_cat := new_data.category.getD old_cat
  let catChanges :=
    if old_cat != new_cat then [Change.correction "category" old_cat new_cat]
    else []
  let added := (tagsSetOf new_data.tags).filter
    fun t => !((tagsSetOf old_data.tags).contains t)
  let tagChanges :=
    if !added.isEmpty then [Change.refinement "tags" added] else []
  let changes := catChanges ++ tagChanges
  if changes.isEmpty then (none, st)
  else
    let event : LearningEvent :=
      ⟨"evt_" ++ toString (st.events.length + 1), entry_id, ts, src, changes,
        (changes.length : Rat) / 2⟩
    (some event,
      ⟨(event :: st.events).take 100, update_stats changes st.stats ts⟩)

def c7meta : Metadata :=
  ⟨some "Policy", some "a,b", some "s", none, none, some "unverified", none,
    none, some "t1"⟩

def c7entry : StoredEntry := ⟨"a", "content", [], c7meta⟩

def c6logs : List QueryLogEntry :=
  [⟨"i1", "q1", 0, 3, 100, false⟩, ⟨"i2", "q1", 0, 3, 100, false⟩,
    ⟨"i3", "q1", 0, 3, 100, false⟩]

/-- A three-digit decimal timestamp: lexicographic string order agrees with
numeric order for `i ≤ 999`. -/
def c9ts (i : Nat) : String :=
  String.mk [Char.ofNat (48 + i / 100), Char.ofNat (48 + i / 10 % 10),
    Char.ofNat (48 + i % 10)]

def c9entry (i : Nat) : StoredEntry :=
  ⟨c9ts i, "doc", [],
    ⟨none, none, none, none, none, none, none, none, some (c9ts i)⟩⟩

/-- 101 active entries in creation order; the 101st (`c9entry 100`) is the
most recently created and carries the largest timestamp. -/
def c9store : List StoredEntry := (List.range 101).map c9entry

/-- A soft-deleted row for the C9 witness. -/
def c9wX : StoredEntry :=
  ⟨"w1", "doc", [],
    ⟨none, none, none, none, none, none, some true, some "dt", some "t"⟩⟩

def c2X : StoredEntry :=
  ⟨"x1", "doc", [],
    ⟨none, none, none, none, none, none, none, none, some "t"⟩⟩

def c2deleted (i : Nat) : StoredEntry :=
  ⟨c9ts (i + 1) ++ "d", "c", [],
    ⟨none, none, none, none, none, none, some true, some "dt",
      some (c9ts (i + 1))⟩⟩

/-- An active row `"x"` with the oldest timestamp besides ten already
soft-deleted rows with younger timestamps. -/
def c2store : List StoredEntry :=
  ⟨"x", "xc", [],
      ⟨none, none, none, none, none, none, none, none, some (c9ts 0)⟩⟩
    :: (List.range 10).map c2deleted

def c1meta : Metadata :=
  ⟨none, none, none, none, none, some "verified_human", none, none, none⟩

def c1v : StoredEntry := ⟨"v", "dv", [], c1meta⟩

def c1w : StoredEntry := ⟨"w", "dw", [], c1meta⟩

/-- Distances for the witness query: entry `"v"` is nearer than `"w"`. -/
def c1d : String → Rat := fun s => if s == "v" then 0 else 2

theorem insOrd_perm (le : α → α → Bool) (x : α) (l : List α) :
    List.Perm (insOrd le x l) (x :: l) := by
  induction l with
  | nil => simp [insOrd]
  | cons y ys ih =>
    by_cases h : le x y = true
    · simp [insOrd, h]
    · simp only [insOrd, h, if_false]
      exact (ih.cons y).trans (List.Perm.swap x y ys)

theorem sortBy_perm (le : α → α → Bool) (l : List α) :
    List.Perm (sortBy le l) l := by
  induction l with
  | nil => simp [sortBy]
  | cons x xs ih =>
    simp only [sortBy, List.foldr_cons]
    exact (insOrd_perm le x _).trans (ih.cons x)

theorem mem_sortBy {le : α → α → Bool} {l : List α} {a : α} :
    a ∈ sortBy le l ↔ a ∈ l :=
  (sortBy_perm le l).mem_iff

theorem sortBy_length (le : α → α → Bool) (l : List α) :
    (sortBy le l).length = l.length :=
  (sortBy_perm le l).length_eq

theorem mem_insOrd {le : α → α → Bool} {x a : α} {l : List α} :
    a ∈ insOrd le x l ↔ a = x ∨ a ∈ l := by
  rw [(insOrd_perm le x l).mem_iff]; simp

theorem insOrd_pairwise {le : α → α → Bool}
    (htot : ∀ a b, le a b || le b a)
    (htrans : ∀ a b c, le a b = true → le b c = true → le a c = true)
    {x : α} {l : List α} (hl : l.Pairwise (fun a b => le a b = true)) :
    (insOrd le x l).Pairwise (fun a b => le a b = true) := by
  induction l with
  | nil => simp [insOrd]
  | cons y ys ih =>
    rcases List.pairwise_cons.mp hl with ⟨hy, hys⟩
    by_cases h : le x y = true
    · simp only [insOrd, h, if_true]
      refine List.pairwise_cons.mpr ⟨?_, hl⟩
      intro b hb
      rcases List.mem_cons.mp hb with rfl | hb
      · exact h
      · exact htrans x y b h (hy b hb)
    · have hyx : le y x = true := by
        rcases Bool.or_eq_true_iff.mp (htot x y) with h' | h'
        · exact absurd h' h
        · exact h'
      simp only [insOrd, h, if_false]
      refine List.pairwise_cons.mpr ⟨?_, ih hys⟩
      intro b hb
      rcases mem_insOrd.mp hb with rfl | hb
      · exact hyx
      · exact hy b hb

theorem sortBy_pairwise {le : α → α → Bool}
    (htot : ∀ a b, le a b || le b a)
    (htrans : ∀ a b c, le a b = true → le b c = true → le a c = true)
    (l : List α) :
    (sortBy le l).Pairwise (fun a b => le a b = true) := by
  induction l with
  | nil => simp [sortBy]
  | cons x xs ih =>
    simp only [sortBy, List.foldr_cons]
    exact insOrd_pairwise htot htrans ih

/-- Stability of the insertion step, phrased through keys: for every key value
`c`, inserting does not reorder the elements whose key is exactly `c`. -/
theorem insOrd_filter_key [LinearOrder κ] (k : α → κ) (c : κ) (x : α)
    (l : List α) :
    (insOrd (keyDescLe k) x l).filter (fun z => decide (k z = c)) =
      if k x = c then x :: l.filter (fun z => decide (k z = c))
      else l.filter (fun z => decide (k z = c)) := by
  induction l with
  | nil =>
    by_cases hx : k x = c <;> simp [insOrd, hx]
  | cons y ys ih =>
    by_cases h : keyDescLe k x y = true
    · -- `x` is inserted in front of `y`
      by_cases hx : k x = c <;>
        simp [insOrd, h, List.filter_cons, hx]
    · -- `x` passes `y`; then `k x < k y`, so `k y ≠ c` whenever `k x = c`
      have hlt : k x < k y := by
        have hn : ¬ (k y ≤ k x) := by
          intro hc
          exact h (by simp [keyDescLe, hc])
        exact lt_of_not_le hn
      simp only [insOrd, h, if_false]
      by_cases hx : k x = c
      · have hy : ¬ (k y = c) := by
          intro hyc
          exact absurd (hx ▸ hyc ▸ hlt) (lt_irrefl _)
        simp [List.filter_cons, hy, ih, hx]
      · simp [List.filter_cons, ih, hx]

/-- Stability of the full sort: for every key value `c`, the sorted list
contains exactly the input's elements of key `c`, in their input order. -/
theorem sortBy_filter_key [LinearOrder κ] (k : α → κ) (c : κ) (l : List α) :
    (sortBy (keyDescLe k) l).filter (fun z => decide (k z = c)) =
      l.filter (fun z => decide (k z = c)) := by
  induction l with
  | nil => simp [sortBy]
  | cons x xs ih =>
    simp only [sortBy, List.foldr_cons] at ih ⊢
    rw [insOrd_filter_key k c x]
    by_cases hx : k x = c <;> simp [List.filter_cons, hx, ih]

theorem mem_dedupAux [DecidableEq α] {l : List α} {a : α} :
    ∀ {seen : List α}, a ∈ dedupAux l seen ↔ a ∈ l ∧ a ∉ seen := by
  induction l with
  | nil => simp [dedupAux]
  | cons x xs ih =>
    intro seen
    by_cases hx : x ∈ seen
    · rw [dedupAux, if_pos hx, ih]
      constructor
      · rintro ⟨h1, h2⟩
        exact ⟨List.mem_cons_of_mem x h1, h2⟩
      · rintro ⟨h1, h2⟩
        rcases List.mem_cons.mp h1 with rfl | h1
        · exact absurd hx h2
        · exact ⟨h1, h2⟩
    · rw [dedupAux, if_neg hx]
      simp only [List.mem_cons, ih, List.mem_cons, not_or]
      constructor
      · rintro (rfl | ⟨h1, h2, h3⟩)
        · exact ⟨Or.inl rfl, hx⟩
        · exact ⟨Or.inr h1, h3⟩
      · rintro ⟨rfl | h1, h2⟩
        · exact Or.inl rfl
        · by_cases hax : a = x
          · exact Or.inl hax
          · exact Or.inr ⟨h1, hax, h2⟩

theorem mem_dedupFirst [DecidableEq α] {l : List α} {a : α} :
    a ∈ dedupFirst l ↔ a ∈ l := by
  simp [dedupFirst, mem_dedupAux]

/-! ## Claim theorems -/

/-- C3: the claim states that each fragment matched by the redaction
patterns is replaced by its fixed sentinel token, so the matched characters
never appear in the output.  The participant-ID pass contradicts this: its
template writes the captured ID back (`\1 [PARTICIPANT_ID_REDACTED]`), so on
`"patient ID: ABC123"` the matched fragment's identifier `"ABC123"` survives
verbatim in the redacted output. -/
theorem c3_participant_match_leaks :
    anonymize_text "patient ID: ABC123" = "ABC123 [PARTICIPANT_ID_REDACTED]"
      ∧ "ABC123".data <:+: (anonymize_text "patient ID: ABC123").data := by
  decide

/-- C4: `anonymize_text` is not idempotent.  On
`"9patient ID: 555123456 7"` the participant pass moves the nine captured
digits next to the leading `9`, forming a ten-digit run that only the second
application's phone pass redacts, so `redact (redact x) ≠ redact x`. -/
theorem c4_redact_not_idempotent :
    anonymize_text "9patient ID: 555123456 7"
        = "9555123456 [PARTICIPANT_ID_REDACTED] 7"
      ∧ anonymize_text (anonymize_text "9patient ID: 555123456 7")
        = "[PHONE_REDACTED] [PARTICIPANT_ID_REDACTED] 7"
      ∧ anonymize_text (anonymize_text "9patient ID: 555123456 7")
        ≠ anonymize_text "9patient ID: 555123456 7" := by
  refine ⟨by decide, by decide, by decide⟩

/-- C10: when the new category equals the old one and every new tag already
occurs among the old tags, `log_learning_event` detects no change and
returns `None` before touching the event list or the statistics. -/
theorem c10_no_event_without_diff (st : LearningState) (entry_id : String)
    (old_data new_data : CorrectionData) (ts src : String)
    (hcat : new_data.category.getD (old_data.category.getD "Uncategorized")
      = old_data.category.getD "Uncategorized")
    (htags : ∀ t ∈ tagsSetOf new_data.tags, t ∈ tagsSetOf old_data.tags) :
    log_learning_event st entry_id old_data new_data ts src = (none, st) := by
  unfold log_learning_event
  have h1 : (old_data.category.getD "Uncategorized"
      != new_data.category.getD (old_data.category.getD "Uncategorized"))
        = false := by
    rw [hcat, bne_self_eq_false]
  have h2 : (tagsSetOf new_data.tags).filter
      (fun t => !((tagsSetOf old_data.tags).contains t)) = [] := by
    rw [List.filter_eq_nil_iff]
    intro t ht
    simp only [Bool.not_eq_true', Bool.not_eq_false]
    exact (List.elem_iff).mpr (htags t ht)
  simp only [h1, h2]
  simp

/-- C10 witness: a correction that only removes a tag (old tags `"a,b"`,
new tags `"a"`, same category) records no event and leaves the state
untouched. -/
theorem c10_witness :
    log_learning_event ⟨[], ⟨0, 19/20, []⟩⟩ "k1" ⟨some "Policy", some "a,b"⟩
        ⟨some "Policy", some "a"⟩ "t0" "user_correction"
      = (none, ⟨[], ⟨0, 19/20, []⟩⟩) :=
  c10_no_event_without_diff _ "k1" _ _ "t0" "user_correction" (by decide)
    (by decide)

theorem dedupFirst_cons [DecidableEq α] (a : α) (l : List α) :
    dedupFirst (a :: l) = a :: dedupAux l [a] := by
  simp [dedupFirst, dedupAux]

theorem ensureTags_len (tags : List String) (category : String) :
    1 ≤ (ensureTags tags category).length := by
  unfold ensureTags
  by_cases h : (tags.isEmpty || decide (tags.length < 2)) = true
  · rw [if_pos h]
    cases tags with
    | nil => simp [fallbackTags, dedupFirst_cons]
    | cons t ts => simp [dedupFirst_cons]
  · rw [if_neg h]
    simp only [Bool.or_eq_true, List.isEmpty_eq_true, decide_eq_true_eq,
      not_or, not_lt] at h
    omega

theorem processJson_tags_len (j : AnalysisJson) :
    1 ≤ (processJson j).tags.length :=
  ensureTags_len _ _

/-- C8 counterexample: the claim promises at least two tags and no raising
for malformed model output.  (i) a parsed response with category
`"Captured"` and single tag `"captured"` makes the category-derived fallback
collide, so `list(set(...))` collapses to the single tag `["captured"]`;
(ii) when every retry attempt raises (e.g. the JSON block never loads),
`analyze_content` re-raises instead of returning a degraded result. -/
theorem c8_counterexample :
    analyze_content [ParseOutcome.found ⟨some "Captured", some ["captured"], none⟩,
        ParseOutcome.raised, ParseOutcome.raised]
      = .ok ⟨"Captured", ["captured"], "No summary available"⟩
    ∧ analyze_content [ParseOutcome.raised, ParseOutcome.raised, ParseOutcome.raised]
      = .error () :=
  ⟨rfl, rfl⟩

/-- The retry loop skips raised attempts while later attempts remain. -/
theorem analyze_content_append_raised (pre : List ParseOutcome)
    (o : ParseOutcome) (rest : List ParseOutcome)
    (hpre : ∀ x ∈ pre, x = ParseOutcome.raised) :
    analyze_content (pre ++ o :: rest) = analyze_content (o :: rest) := by
  induction pre with
  | nil => rfl
  | cons p ps ih =>
    have hp : p = ParseOutcome.raised := hpre p (List.mem_cons_self p ps)
    subst hp
    rw [List.cons_append, analyze_content, if_neg (by simp)]
    exact ih fun x hx => hpre x (List.mem_cons_of_mem _ hx)

/-- `list(set(tags + fallback_tags))[:5]` keeps at least two tags unless the
category-derived fallback tag is `"captured"` and every supplied tag is
`"captured"` too (then the set collapses to the single tag `"captured"`). -/
theorem ensureTags_two (tags : List String) (category : String)
    (hno : ¬ (fallbackHead category = "captured"
      ∧ ∀ t ∈ tags, t = "captured")) :
    2 ≤ (ensureTags tags category).length := by
  unfold ensureTags fallbackTags
  by_cases h : (tags.isEmpty || decide (tags.length < 2)) = true
  · rw [if_pos h]
    cases tags with
    | nil =>
      have hf : ¬ (fallbackHead category = "captured") := by
        intro hc
        exact hno ⟨hc, by simp⟩
      have hmem : ("captured" : String) ≠ fallbackHead category :=
        fun hc => hf hc.symm
      simp [dedupFirst, dedupAux, hmem]
    | cons t ts =>
      have hts : ts = [] := by
        rcases Bool.or_eq_true_iff.mp h with h1 | h1
        · simp at h1
        · have h2 := of_decide_eq_true h1
          simp only [List.length_cons] at h2
          exact List.eq_nil_of_length_eq_zero (by omega)
      subst hts
      by_cases hft : fallbackHead category = t
      · by_cases hct : ("captured" : String) = t
        · exact absurd ⟨hft.trans hct.symm, by simp [hct.symm]⟩ hno
        · simp [dedupFirst, dedupAux, hft, hct]
      · by_cases hcf : ("captured" : String) = fallbackHead category
        · by_cases hct : ("captured" : String) = t
          · exact absurd (hcf.symm.trans hct) hft
          · simp [dedupFirst, dedupAux, hft, hcf, hct]
        · by_cases hct : ("captured" : String) = t
          · simp [dedupFirst, dedupAux, hft, hcf, hct]
          · simp [dedupFirst, dedupAux, hft, hcf, hct]
  · rw [if_neg h]
    simp only [Bool.or_eq_true, List.isEmpty_eq_true, decide_eq_true_eq,
      not_or, not_lt] at h
    omega

/-- C8 (amended): once a retry attempt yields a parsed JSON object or a
response without a JSON block (after any number of raised attempts),
`analyze_content` returns without raising; a no-JSON response carries
exactly the two generic fallback tags; a parsed response carries at least
one tag, never an empty array, and at least two unless the response
supplied fewer than two tags, all equal to `"captured"`, and the
category-derived fallback tag is itself `"captured"` (the collision that
collapses `list(set(...))`); when every attempt raises, `analyze_content`
raises. -/
theorem c8_analyze_tags :
    (∀ (pre rest : List ParseOutcome) (j : AnalysisJson),
      (∀ o ∈ pre, o = ParseOutcome.raised) →
      analyze_content (pre ++ ParseOutcome.found j :: rest)
          = .ok (processJson j)
        ∧ 1 ≤ (processJson j).tags.length
        ∧ (processJson j).tags ≠ []
        ∧ (¬ (fallbackHead (j.category.getD "General") = "captured"
              ∧ ∀ t ∈ j.tags.getD [], t = "captured") →
            2 ≤ (processJson j).tags.length))
    ∧ (∀ (pre rest : List ParseOutcome),
        (∀ o ∈ pre, o = ParseOutcome.raised) →
        analyze_content (pre ++ ParseOutcome.noJson :: rest)
          = .ok ⟨"Uncategorized", ["general", "captured"],
              "Analysis failed to produce structured output"⟩)
    ∧ (∀ attempts : List ParseOutcome, attempts ≠ [] →
        (∀ o ∈ attempts, o = ParseOutcome.raised) →
        analyze_content attempts = .error ()) := by
  refine ⟨?_, ?_, ?_⟩
  · intro pre rest j hpre
    have hskip := analyze_content_append_raised pre (ParseOutcome.found j)
      rest hpre
    have hlen := processJson_tags_len j
    exact ⟨by rw [hskip]; rfl, hlen, List.ne_nil_of_length_pos hlen,
      fun hno => ensureTags_two _ _ hno⟩
  · intro pre rest hpre
    rw [analyze_content_append_raised pre ParseOutcome.noJson rest hpre]
    rfl
  · intro attempts
    induction attempts with
    | nil => intro h; exact absurd rfl h
    | cons o rest ih =>
      intro _ hall
      have ho : o = ParseOutcome.raised := hall o (List.mem_cons_self o rest)
      subst ho
      rw [analyze_content]
      by_cases hre : rest.isEmpty = true
      · rw [if_pos hre]
      · rw [if_neg hre]
        exact ih (by simpa using hre)
          (fun o' ho' => hall o' (List.mem_cons_of_mem _ ho'))

/-- C8 witness: after one raised attempt, a parsed response with category
`"Policy"` and no tags returns without raising, carrying the two fallback
tags. -/
theorem c8_witness :
    analyze_content [ParseOutcome.raised,
        ParseOutcome.found ⟨some "Policy", none, none⟩, ParseOutcome.raised]
      = .ok (processJson ⟨some "Policy", none, none⟩)
    ∧ 2 ≤ (processJson ⟨some "Policy", none, none⟩).tags.length := by
  have h := c8_analyze_tags.1 [ParseOutcome.raised] [ParseOutcome.raised]
    ⟨some "Policy", none, none⟩ (by decide)
  exact ⟨h.1, h.2.2.2 (by decide)⟩

/-- C5 counterexample: the claim promises that exactly one `QueryLogEntry`
is appended per invocation *including* failures.  When embedding generation
raises, the `except` branch returns the empty result with the query log
unchanged (`[]` here), so no entry with `result_count=0` is appended. -/
theorem c5_counterexample :
    query_knowledge_base "q" "qid" 5 7 (Except.error ())
        (fun _ => Except.ok []) []
      = Except.ok (⟨"qid", "q", 5, [], 7⟩, ([] : List QueryLogEntry)) := rfl

/-- C5 (amended): for every non-empty query, a successful invocation appends
exactly one query-log entry, carrying the returned result count and
`has_results = (count > 0)`; when embedding generation or the store search
raises, the caller receives an empty result set and **no** entry is
appended. -/
theorem c5_query_logging (query qid : String) (now ptime : Nat)
    (embedRes : Except Unit (List Rat))
    (searchRes : List Rat → Except Unit (List SearchMatch))
    (log : List QueryLogEntry) (hq : (pyStrip query == "") = false) :
    (∀ emb ms, embedRes = .ok emb → searchRes emb = .ok ms →
      query_knowledge_base query qid now ptime embedRes searchRes log
        = .ok (⟨qid, query, now, format_matches ms, ptime⟩,
            log ++ [⟨qid, query, (format_matches ms).length, ptime, now,
              decide (0 < (format_matches ms).length)⟩]))
    ∧ ((embedRes = .error ()
        ∨ ∃ emb, embedRes = .ok emb ∧ searchRes emb = .error ()) →
      query_knowledge_base query qid now ptime embedRes searchRes log
        = .ok (⟨qid, query, now, [], ptime⟩, log)) := by
  constructor
  · rintro emb ms rfl hs
    simp [query_knowledge_base, hq, hs, log_query]
  · rintro (rfl | ⟨emb, rfl, hs⟩)
    · simp [query_knowledge_base, hq]
    · simp [query_knowledge_base, hq, hs]

/-- C5 witness: a successful query over one match logs exactly one entry
with `result_count = 1` and `has_results = true`. -/
theorem c5_witness :
    query_knowledge_base "q" "qid" 5 7 (Except.ok [])
        (fun _ => Except.ok
          [⟨"k", "doc", ⟨none, none, none, none, none, none, none, none, none⟩, 1⟩]) []
      = Except.ok (⟨"qid", "q", 5, [⟨"k", "doc", 1⟩], 7⟩,
          [⟨"qid", "q", 1, 7, 5, true⟩]) := by
  have h := (c5_query_logging "q" "qid" 5 7 (Except.ok [])
      (fun _ => Except.ok [⟨"k", "doc",
        ⟨none, none, none, none, none, none, none, none, none⟩, 1⟩])
      [] (by decide)).1 []
      [⟨"k", "doc", ⟨none, none, none, none, none, none, none, none, none⟩, 1⟩]
      rfl rfl
  simpa [format_matches] using h

/-- C7: updating an existing entry with only tags supplied yields exactly
these changes: `tags` becomes the comma-joined supplied list and
`verification_status` is forced to `"verified_human"`; the stored document,
the embedding and every other metadata key are unchanged; every other row is
untouched. -/
theorem c7_update_tags_only (store : List StoredEntry) (entry_id : String)
    (ts : List String)
    (hfound : store.any (fun e => e.id == entry_id) = true) :
    update_knowledge_entry store entry_id ⟨none, some ts, none, none⟩
      = (true, store.map fun e =>
          if e.id == entry_id then
            { e with metadata :=
              { e.metadata with
                  tags := some (String.intercalate "," ts)
                  verification_status := some "verified_human" } }
          else e) := by
  unfold update_knowledge_entry update_entry buildUpdates
  rw [if_pos hfound]
  congr 1

/-- C7 witness: on a concrete unverified entry, a tags-only update forces
`verified_human`, replaces the tags and preserves everything else. -/
theorem c7_witness :
    update_knowledge_entry [c7entry] "a" ⟨none, some ["x"], none, none⟩
      = (true, [⟨"a", "content", [],
          ⟨some "Policy", some "x", some "s", none, none,
            some "verified_human", none, none, some "t1"⟩⟩]) := by
  rw [c7_update_tags_only [c7entry] "a" ["x"] (by decide)]
  decide

theorem keyDescLe_total [LinearOrder κ] (k : α → κ) (a b : α) :
    keyDescLe k a b || keyDescLe k b a := by
  unfold keyDescLe
  rcases le_total (k a) (k b) with h | h <;> simp [h]

theorem keyDescLe_trans [LinearOrder κ] (k : α → κ) (a b c : α)
    (h1 : keyDescLe k a b = true) (h2 : keyDescLe k b c = true) :
    keyDescLe k a c = true := by
  simp only [keyDescLe, decide_eq_true_eq] at h1 h2 ⊢
  exact h2.trans h1

theorem keyAscLe_total [LinearOrder κ] (k : α → κ) (a b : α) :
    keyAscLe k a b || keyAscLe k b a := by
  unfold keyAscLe
  rcases le_total (k a) (k b) with h | h <;> simp [h]

theorem keyAscLe_trans [LinearOrder κ] (k : α → κ) (a b c : α)
    (h1 : keyAscLe k a b = true) (h2 : keyAscLe k b c = true) :
    keyAscLe k a c = true := by
  simp only [keyAscLe, decide_eq_true_eq] at h1 h2 ⊢
  exact h1.trans h2

/-- C6 (spec-modelled: `get_knowledge_gaps` is only called in the source,
never defined): gaps group the windowed `has_results = false` log entries by
exact query text; every reported gap carries that group's count and
last-asked timestamp; the report is ordered most frequent first; and a text
that failed exactly three times inside the window is reported with
`count = 3` whenever the distinct gap texts fit the limit. -/
theorem c6_knowledge_gaps (logs : List QueryLogEntry)
    (now windowDays limit : Nat) (q : String)
    (h3 : ((gapWindow logs now windowDays).filter
      (fun e => e.query_text == q)).length = 3)
    (hlim : (gapList logs now windowDays).length ≤ limit) :
    (∃ g ∈ get_knowledge_gaps logs now limit windowDays,
        g.query = q ∧ g.count = 3)
    ∧ (∀ g ∈ get_knowledge_gaps logs now limit windowDays,
        g.count = ((gapWindow logs now windowDays).filter
          (fun e => e.query_text == g.query)).length
        ∧ g.last_asked = lastAsked ((gapWindow logs now windowDays).filter
          (fun e => e.query_text == g.query)))
    ∧ (get_knowledge_gaps logs now limit windowDays).Pairwise
        (fun a b => keyDescLe (fun g : KnowledgeGap => g.count) a b = true) := by
  have hfull : get_knowledge_gaps logs now limit windowDays
      = sortBy (keyDescLe fun g : KnowledgeGap => g.count)
          (gapList logs now windowDays) := by
    unfold get_knowledge_gaps
    apply List.take_of_length_le
    rw [sortBy_length]
    exact hlim
  refine ⟨?_, ?_, ?_⟩
  · -- the three-failure text is reported with count 3
    have hpos : 0 < ((gapWindow logs now windowDays).filter
        (fun e => e.query_text == q)).length := by omega
    rcases List.exists_mem_of_length_pos hpos with ⟨e, he⟩
    have heq : e.query_text = q := by
      simpa using List.of_mem_filter he
    have hqmem : q ∈ dedupFirst
        ((gapWindow logs now windowDays).map (fun e => e.query_text)) := by
      rw [mem_dedupFirst]
      exact heq ▸ List.mem_map_of_mem _ (List.mem_of_mem_filter he)
    refine ⟨⟨q, ((gapWindow logs now windowDays).filter
        (fun e => e.query_text == q)).length,
        lastAsked ((gapWindow logs now windowDays).filter
          (fun e => e.query_text == q))⟩, ?_, rfl, h3⟩
    rw [hfull, mem_sortBy]
    unfold gapList
    exact List.mem_map_of_mem _ hqmem
  · intro g hg
    rw [hfull, mem_sortBy] at hg
    unfold gapList at hg
    rcases List.mem_map.mp hg with ⟨q', _, rfl⟩
    exact ⟨rfl, rfl⟩
  · rw [hfull]
    exact sortBy_pairwise (keyDescLe_total _) (keyDescLe_trans _) _

/-- C6 witness: a text that returned zero results three times inside the
window is reported with `count = 3`. -/
theorem c6_witness :
    ∃ g ∈ get_knowledge_gaps c6logs 100 5 7, g.query = "q1" ∧ g.count = 3 :=
  (c6_knowledge_gaps c6logs 100 7 5 "q1" (by decide) (by decide)).1

theorem charsLe_total : ∀ (x y : List Char), charsLe x y || charsLe y x := by
  intro x
  induction x with
  | nil => intro y; simp [charsLe]
  | cons a as ih =>
    intro y
    cases y with
    | nil => simp [charsLe]
    | cons b bs =>
      rcases lt_trichotomy a b with h | h | h
      · simp [charsLe, h]
      · subst h
        simp only [charsLe, lt_irrefl, if_false]
        exact ih bs
      · simp [charsLe, h, lt_asymm h]

theorem charsLe_trans :
    ∀ (x y z : List Char), charsLe x y = true → charsLe y z = true →
      charsLe x z = true := by
  intro x
  induction x with
  | nil => intro y z _ _; rfl
  | cons a as ih =>
    intro y z h1 h2
    cases y with
    | nil => simp [charsLe] at h1
    | cons b bs =>
      cases z with
      | nil => simp [charsLe] at h2
      | cons c cs =>
        rcases lt_trichotomy a b with hab | hab | hab
        · rcases lt_trichotomy b c with hbc | hbc | hbc
          · simp [charsLe, lt_trans hab hbc]
          · subst hbc
            simp [charsLe, hab]
          · rw [charsLe, if_neg (lt_asymm hbc), if_pos hbc] at h2
            exact absurd h2 (by simp)
        · subst hab
          rw [charsLe, if_neg (lt_irrefl a), if_neg (lt_irrefl a)] at h1
          rcases lt_trichotomy a c with hac | hac | hac
          · simp [charsLe, hac]
          · subst hac
            rw [charsLe, if_neg (lt_irrefl a), if_neg (lt_irrefl a)] at h2 ⊢
            exact ih bs cs h1 h2
          · rw [charsLe, if_neg (lt_asymm hac), if_pos hac] at h2
            exact absurd h2 (by simp)
        · rw [charsLe, if_neg (lt_asymm hab), if_pos hab] at h1
          exact absurd h1 (by simp)

theorem tsDescLe_total (a b : StoredEntry) : tsDescLe a b || tsDescLe b a := by
  unfold tsDescLe strLe
  exact charsLe_total _ _

theorem tsDescLe_trans (a b c : StoredEntry) (h1 : tsDescLe a b = true)
    (h2 : tsDescLe b c = true) : tsDescLe a c = true :=
  charsLe_trans _ _ _ h2 h1

theorem mem_recent_entries {store : List StoredEntry} {lim : Nat}
    {del : Bool} {e : StoredEntry} (h : e ∈ get_recent_entries store lim del) :
    e ∈ (store.filter fun x =>
      if del then whereDeleted x.metadata else whereActive x.metadata).take 100 := by
  unfold get_recent_entries at h
  exact mem_sortBy.mp (List.mem_of_mem_take h)

/-- C9: the recent-entries listing returns at most `limit` rows, all of them
matching the requested deleted/active filter, sorted by metadata timestamp
descending — but the candidates come from one fetch of at most 100 rows, so
on a store of 101 active entries the most recently created entry
(`c9entry 100`, largest timestamp, active) is omitted from the result. -/
theorem c9_recent_entries :
    (∀ (store : List StoredEntry) (limit : Nat) (del : Bool),
      (get_recent_entries store limit del).length ≤ limit
      ∧ (∀ e ∈ get_recent_entries store limit del,
          (if del then whereDeleted e.metadata else whereActive e.metadata)
            = true)
      ∧ (get_recent_entries store limit del).Pairwise
          (fun a b => tsDescLe a b = true))
    ∧ c9entry 100 ∈ c9store
    ∧ whereActive (c9entry 100).metadata = true
    ∧ (∀ e ∈ c9store, strLe (tsKey e) (tsKey (c9entry 100)) = true)
    ∧ (∀ e ∈ get_recent_entries c9store 10 false, e.id ≠ (c9entry 100).id) := by
  refine ⟨fun store limit del => ⟨?_, ?_, ?_⟩, ?_, ?_, ?_, ?_⟩
  · exact List.length_take_le _ _
  · intro e he
    have h1 := mem_recent_entries he
    have h2 : e ∈ store.filter fun x =>
        if del then whereDeleted x.metadata else whereActive x.metadata :=
      List.mem_of_mem_take h1
    simpa using List.of_mem_filter h2
  · exact (sortBy_pairwise tsDescLe_total tsDescLe_trans
      _).sublist (List.take_sublist _ _)
  · decide
  · decide
  · decide
  · intro e he
    have h100 : ∀ x ∈ (c9store.filter fun x =>
        if false then whereDeleted x.metadata else whereActive x.metadata).take 100,
        x.id ≠ (c9entry 100).id := by decide
    exact h100 e (mem_recent_entries he)

/-- C9 witness: a deleted row listed by `recent(deleted_only=true)` indeed
satisfies the deleted filter. -/
theorem c9_witness : whereDeleted c9wX.metadata = true :=
  (c9_recent_entries.1 [c9wX] 5 true).2.1 c9wX (by decide)

theorem mem_delete_deleted {store : List StoredEntry} {i now : String}
    {e : StoredEntry} (he : e ∈ (delete_entry store i now).2)
    (hid : e.id = i) : e.metadata.is_deleted = some true := by
  by_cases hf : store.any (fun x => x.id == i) = true
  · simp only [delete_entry, hf, if_true] at he
    rcases List.mem_map.mp he with ⟨x, _, rfl⟩
    by_cases hxi : (x.id == i) = true
    · simp [hxi, markDeleted]
    · exfalso
      rw [if_neg hxi] at hid
      exact hxi (beq_iff_eq.mpr hid)
  · exfalso
    simp only [delete_entry, hf, if_false] at he
    exact hf (List.any_eq_true.mpr ⟨e, he, beq_iff_eq.mpr hid⟩)

theorem mem_restore_restored {store : List StoredEntry} {i : String}
    {e : StoredEntry} (he : e ∈ (restore_entry store i).2)
    (hid : e.id = i) : e.metadata.is_deleted = some false := by
  by_cases hf : store.any (fun x => x.id == i) = true
  · simp only [restore_entry, hf, if_true] at he
    rcases List.mem_map.mp he with ⟨x, _, rfl⟩
    by_cases hxi : (x.id == i) = true
    · simp [hxi, markRestored]
    · exfalso
      rw [if_neg hxi] at hid
      exact hxi (beq_iff_eq.mpr hid)
  · exfalso
    simp only [restore_entry, hf, if_false] at he
    exact hf (List.any_eq_true.mpr ⟨e, he, beq_iff_eq.mpr hid⟩)

theorem delete_mem_marked {store : List StoredEntry} {X : StoredEntry}
    (hmem : X ∈ store) (now : String) :
    { X with metadata := markDeleted X.metadata now }
      ∈ (delete_entry store X.id now).2 := by
  have hf : store.any (fun x => x.id == X.id) = true :=
    List.any_eq_true.mpr ⟨X, hmem, beq_self_eq_true _⟩
  simp only [delete_entry, hf, if_true]
  have hm := List.mem_map_of_mem (fun e =>
    if (e.id == X.id) = true then
      { e with metadata := markDeleted e.metadata now } else e) hmem
  simpa using hm

theorem restore_mem_marked {store : List StoredEntry} {X : StoredEntry}
    (hmem : X ∈ store) :
    { X with metadata := markRestored X.metadata }
      ∈ (restore_entry store X.id).2 := by
  have hf : store.any (fun x => x.id == X.id) = true :=
    List.any_eq_true.mpr ⟨X, hmem, beq_self_eq_true _⟩
  simp only [restore_entry, hf, if_true]
  have hm := List.mem_map_of_mem (fun e =>
    if (e.id == X.id) = true then
      { e with metadata := markRestored e.metadata } else e) hmem
  simpa using hm

/-- When every row with id `i` is soft-deleted, the default search
(`include_deleted=false`) cannot return id `i`: the `where` filter already
excludes it at the index query. -/
theorem search_excludes_deleted {store : List StoredEntry}
    {d : String → Rat} {topK : Nat} {thr : Rat} {vo : Bool} {i : String}
    (hdel : ∀ e ∈ store, e.id = i → e.metadata.is_deleted = some true) :
    i ∉ (vdbSearch store d topK thr vo false).map (fun m => m.id) := by
  intro hmem
  rcases List.mem_map.mp hmem with ⟨m, hm, hmid⟩
  have hm2 : m ∈ searchCandidates store d topK thr vo false :=
    mem_sortBy.mp hm
  unfold searchCandidates at hm2
  rcases List.mem_filterMap.mp hm2 with ⟨e, he, hfe⟩
  have hem : m.id = e.id := by
    by_cases hth : thr ≤ 1 - d e.id / 2
    · rw [if_pos hth] at hfe
      cases hfe
      rfl
    · rw [if_neg hth] at hfe
      cases hfe
  unfold collectionQuery at he
  have he2 : e ∈ store.filter fun x => queryWhere vo false x.metadata :=
    mem_sortBy.mp (List.mem_of_mem_take he)
  have hw := List.of_mem_filter he2
  have hdel' := hdel e (List.mem_of_mem_filter he2) (hem ▸ hmid)
  simp [queryWhere, whereActive, hdel'] at hw

/-- C2 counterexample: the claim promises that after soft-deleting X,
`recent(deleted_only=true)` returns X.  With ten already-deleted rows whose
timestamps exceed X's, the deleted listing at the source's default
`limit=10` drops X (it is the eleventh most recent deleted row). -/
theorem c2_counterexample :
    (delete_entry c2store "x" "now").1 = true
    ∧ "x" ∉ (get_recent_entries (delete_entry c2store "x" "now").2 10
        true).map (fun e => e.id) := by
  refine ⟨by decide, by decide⟩

/-- C2 (amended): after soft-delete(X), (a) the default search never
returns X; (b) `recent(deleted_only=true)` returns X **provided** the
deleted rows fit both the 100-row fetch and the requested limit; after
restore(X), (c) every row with X's id passes the default search's
`is_deleted` filter again and such a row exists, and (d)
`recent(deleted_only=true)` no longer returns X, for every limit. -/
theorem c2_soft_delete_lifecycle (store : List StoredEntry) (X : StoredEntry)
    (now : String) (hmem : X ∈ store) :
    (∀ (d : String → Rat) (topK : Nat) (thr : Rat) (vo : Bool),
      X.id ∉ (vdbSearch (delete_entry store X.id now).2 d topK thr vo
        false).map (fun m => m.id))
    ∧ (∀ limit : Nat,
        ((delete_entry store X.id now).2.filter fun e =>
          whereDeleted e.metadata).length ≤ limit →
        ((delete_entry store X.id now).2.filter fun e =>
          whereDeleted e.metadata).length ≤ 100 →
        X.id ∈ (get_recent_entries (delete_entry store X.id now).2 limit
          true).map (fun e => e.id))
    ∧ (∀ e ∈ (restore_entry (delete_entry store X.id now).2 X.id).2,
        e.id = X.id → whereActive e.metadata = true)
    ∧ (∃ e ∈ (restore_entry (delete_entry store X.id now).2 X.id).2,
        e.id = X.id)
    ∧ (∀ limit : Nat,
        X.id ∉ (get_recent_entries
          (restore_entry (delete_entry store X.id now).2 X.id).2 limit
          true).map (fun e => e.id)) := by
  refine ⟨?_, ?_, ?_, ?_, ?_⟩
  · intro d topK thr vo
    exact search_excludes_deleted fun e he hid => mem_delete_deleted he hid
  · intro limit h1 h2
    have hX1 : { X with metadata := markDeleted X.metadata now }
        ∈ (delete_entry store X.id now).2 := delete_mem_marked hmem now
    have hXd : whereDeleted (markDeleted X.metadata now) = true := by
      simp [markDeleted, whereDeleted]
    have hXf : { X with metadata := markDeleted X.metadata now }
        ∈ (delete_entry store X.id now).2.filter fun e =>
          whereDeleted e.metadata :=
      List.mem_filter.mpr ⟨hX1, hXd⟩
    have hgoal : get_recent_entries (delete_entry store X.id now).2 limit true
        = (sortBy tsDescLe (((delete_entry store X.id now).2.filter fun e =>
            whereDeleted e.metadata).take 100)).take limit := by
      simp [get_recent_entries]
    rw [hgoal, List.take_of_length_le h2, List.take_of_length_le]
    · exact List.mem_map.mpr
        ⟨{ X with metadata := markDeleted X.metadata now },
          mem_sortBy.mpr hXf, rfl⟩
    · rw [sortBy_length]
      exact h1
  · intro e he hid
    have := mem_restore_restored he hid
    simp [whereActive, this]
  · exact ⟨{ X with metadata := markRestored (markDeleted X.metadata now) },
      @restore_mem_marked (delete_entry store X.id now).2
        { X with metadata := markDeleted X.metadata now }
        (delete_mem_marked hmem now), rfl⟩
  · intro limit hx
    rcases List.mem_map.mp hx with ⟨e, he, hid⟩
    have h1 := mem_recent_entries he
    have h2 : e ∈ (restore_entry (delete_entry store X.id now).2 X.id).2.filter
        fun x => whereDeleted x.metadata := by
      have h3 := List.mem_of_mem_take h1
      simpa using h3
    have hw := List.of_mem_filter h2
    have hr := mem_restore_restored (List.mem_of_mem_filter h2) hid
    simp [whereDeleted, hr] at hw

/-- C2 witness: one concrete entry, deleted then restored. -/
theorem c2_witness :
    "x1" ∉ (vdbSearch (delete_entry [c2X] "x1" "now").2 (fun _ => 0) 3 0
        false false).map (fun m => m.id)
    ∧ "x1" ∈ (get_recent_entries (delete_entry [c2X] "x1" "now").2 10
        true).map (fun e => e.id)
    ∧ "x1" ∉ (get_recent_entries
        (restore_entry (delete_entry [c2X] "x1" "now").2 "x1").2 10
        true).map (fun e => e.id) := by
  have h := c2_soft_delete_lifecycle [c2X] c2X "now" (by decide)
  exact ⟨h.1 (fun _ => 0) 3 0 false, h.2.1 10 (by decide) (by decide),
    h.2.2.2.2 10⟩

theorem verifiedBoost_le_one (m : Metadata) : verifiedBoost m ≤ 1 := by
  unfold verifiedBoost
  split <;> omega

/-- C1: `VectorDatabase.search` returns exactly the threshold-filtered
candidates reordered by a stable descending sort on the lexicographic key
`(verified_boost, similarity_score)`: the output is a permutation of the
candidates, pairwise non-increasing in that key, and inside every key class
the candidates' relative order is preserved (stability); consequently, an
entry with `verification_status = "verified_human"` is never ranked below
one without it — in particular, on a similarity tie between a verified and
an unverified entry, the verified one comes first. -/
theorem c1_search_ranking (store : List StoredEntry) (d : String → Rat)
    (topK : Nat) (thr : Rat) (vo incl : Bool) :
    List.Perm (vdbSearch store d topK thr vo incl)
        (searchCandidates store d topK thr vo incl)
    ∧ (vdbSearch store d topK thr vo incl).Pairwise
        (fun a b => rankLe a b = true)
    ∧ (∀ c : Nat ×ₗ Rat,
        (vdbSearch store d topK thr vo incl).filter
            (fun m => decide (rankKey m = c))
          = (searchCandidates store d topK thr vo incl).filter
            (fun m => decide (rankKey m = c)))
    ∧ (∀ (x y : SearchMatch) (pre mid suf : List SearchMatch),
        vdbSearch store d topK thr vo incl = pre ++ x :: mid ++ y :: suf →
        verifiedBoost y.metadata = 1 → verifiedBoost x.metadata = 1) := by
  have hdef : vdbSearch store d topK thr vo incl
      = sortBy (keyDescLe rankKey)
          (searchCandidates store d topK thr vo incl) := rfl
  refine ⟨?_, ?_, ?_, ?_⟩
  · rw [hdef]
    exact sortBy_perm _ _
  · rw [hdef]
    exact sortBy_pairwise (keyDescLe_total rankKey) (keyDescLe_trans rankKey) _
  · intro c
    rw [hdef]
    exact sortBy_filter_key rankKey c _
  · intro x y pre mid suf hout hy
    have hp : (vdbSearch store d topK thr vo incl).Pairwise
        (fun a b => rankLe a b = true) := by
      rw [hdef]
      exact sortBy_pairwise (keyDescLe_total rankKey)
        (keyDescLe_trans rankKey) _
    rw [hout] at hp
    have hxy : rankLe x y = true := by
      have h2 := (List.pairwise_append.mp hp).2.2
      exact h2 x (List.mem_append_right pre (List.mem_cons_self x mid)) y
        (List.mem_cons_self y suf)
    have hle : rankKey y ≤ rankKey x := by
      unfold rankLe keyDescLe at hxy
      exact of_decide_eq_true hxy
    have hle' : verifiedBoost y.metadata < verifiedBoost x.metadata
        ∨ verifiedBoost y.metadata = verifiedBoost x.metadata
          ∧ y.similarity_score ≤ x.similarity_score := by
      unfold rankKey at hle
      rw [Prod.Lex.le_iff] at hle
      simpa using hle
    rcases hle' with h | h
    · exact absurd (hy ▸ h) (by simpa using verifiedBoost_le_one x.metadata)
    · rw [← h.1, hy]

/-- Concrete evaluation of the search over the two-entry witness store:
similarities are `1 - 0/2 = 1` and `1 - 2/2 = 0`, both above the threshold
`0`, ranked `v` before `w`. -/
theorem c1_eval :
    vdbSearch [c1v, c1w] c1d 3 0 false false
      = [⟨"v", "dv", c1meta, 1⟩, ⟨"w", "dw", c1meta, 0⟩] := by
  have hq : collectionQuery [c1v, c1w] c1d 3 false false = [c1v, c1w] := by
    decide
  have hdv : c1d "v" = 0 := rfl
  have hdw : c1d "w" = 2 := rfl
  have hsv : (1 : Rat) - c1d "v" / 2 = 1 := by
    rw [hdv]; norm_num
  have hsw : (1 : Rat) - c1d "w" / 2 = 0 := by
    rw [hdw]; norm_num
  have hcand : searchCandidates [c1v, c1w] c1d 3 0 false false
      = [⟨"v", "dv", c1meta, 1⟩, ⟨"w", "dw", c1meta, 0⟩] := by
    unfold searchCandidates
    rw [hq]
    simp only [List.filterMap_cons, List.filterMap_nil, c1v, c1w]
    rw [hsv, hsw]
    norm_num
  have hr : rankLe ⟨"v", "dv", c1meta, 1⟩ ⟨"w", "dw", c1meta, 0⟩ = true := by
    simp only [rankLe, keyDescLe, rankKey, verifiedBoost, c1meta,
      decide_eq_true_eq, Prod.Lex.le_iff]
    norm_num
  show sortBy rankLe (searchCandidates [c1v, c1w] c1d 3 0 false false) = _
  rw [hcand]
  simp [sortBy, insOrd, hr]

/-- C1 witness: in the concrete two-verified-entry search, the entry ranked
above a verified entry is itself verified. -/
theorem c1_witness :
    verifiedBoost (SearchMatch.mk "v" "dv" c1meta 1).metadata = 1 :=
  (c1_search_ranking [c1v, c1w] c1d 3 0 false false).2.2.2
    ⟨"v", "dv", c1meta, 1⟩ ⟨"w", "dw", c1meta, 0⟩ [] [] []
    (by rw [c1_eval]; simp) (by decide)

end KnowledgeWeaver
